import Mathlib

/-!
Verification of the RGB Core consensus layer (`rgb-core`): a shallow embedding of
`src/validation/status.rs` and `src/schema/schema.rs`, with the external collaborator
types (occurrence bounds, baid58 text encoding, the commitment hash) modelled from the
specification where their defining files are not part of the sources.
-/

set_option maxHeartbeats 1000000
set_option synthInstance.maxHeartbeats 400000

namespace RgbCore

/-- Transaction id from the external `bp` crate: a 32-byte hash, modelled as its byte list. -/
abbrev Txid := List Nat

/-- Operation id: a 32-byte commitment id, modelled as its byte list. -/
abbrev OpId := List Nat

/-- Bundle id: a 32-byte commitment id, modelled as its byte list. -/
abbrev BundleId := List Nat

/-- Secret seal: a 32-byte confidential seal id, modelled as its byte list. -/
abbrev SecretSeal := List Nat

/-- `pub type GlobalStateType = u16` from `schema.rs`, modelled as `Nat`. -/
abbrev GlobalStateType := Nat

/-- `pub type ExtensionType = u16` from `schema.rs`, modelled as `Nat`. -/
abbrev ExtensionType := Nat

/-- `pub type TransitionType = u16` from `schema.rs`, modelled as `Nat`. -/
abbrev TransitionType := Nat

/-- Modelled from the spec: assignment (owned state) type index, a `u16` like the other
schema type indexes (its defining file is not under the sources). -/
abbrev AssignmentType := Nat

/-- Modelled from the spec: valency type index, a `u16` like the other schema type
indexes (its defining file is not under the sources). -/
abbrev ValencyType := Nat

/-- Modelled from the spec: `Occurrences` (its defining file is not under the sources) is an
inclusive (min, max) cardinality bound on entry counts; `max = none` means unbounded. -/
structure Occurrences where
  occMin : Nat
  occMax : Option Nat
  deriving DecidableEq, Repr

/-- `Occurrences::NoneOrMore` = the (0, unbounded) bound. -/
def Occurrences.noneOrMore : Occurrences := ⟨0, none⟩

/-- Modelled from the spec: the occurrence check of an inclusive (min, max) bound:
the count of entries present must lie within the declared bound. -/
def Occurrences.check (o : Occurrences) (count : Nat) : Bool :=
  decide (o.occMin ≤ count) &&
    (match o.occMax with
     | none => true
     | some m => decide (count ≤ m))

/-- Modelled from the spec: an occurrence-bound violation report carrying
actual-vs-expected counts. -/
structure OccurrencesMismatch where
  expected : Occurrences
  found : Nat
  deriving DecidableEq

/-- Modelled from the spec: the kind of owned state (declarative / fungible / structured). -/
inductive StateType
  | declarative
  | fungible
  | structured
  deriving DecidableEq

/-- Modelled from the spec: the numeric representation kind of fungible state. -/
abbrev FungibleType := Nat

/-- Opout per the spec glossary: reference to a specific state entry
(operation id, assignment type, index). -/
structure Opout where
  op : OpId
  ty : AssignmentType
  no : Nat
  deriving DecidableEq

/-- Modelled from the spec: the closed set of operation kinds
(genesis / state transition / state extension). -/
inductive OpType
  | genesis
  | stateTransition
  | stateExtension
  deriving DecidableEq

/-- Seal-closing verification error from the external `bp::seals` crate, modelled as an
opaque message. -/
abbrev SealsVerifyError := String

/-- Anchor verification error from the external `bp::dbc::anchor` crate, modelled as an
opaque message. -/
abbrev AnchorVerifyError := String

/-- Schema identifier: a 32-byte commitment id, modelled as its byte list. -/
abbrev SchemaId := List Nat

/-- The `Failure` enum of `validation/status.rs`, with every variant of the source and its
payloads (payload types defined outside the sources are modelled as above). -/
inductive Failure
  | SchemaMismatch (expected : SchemaId) (actual : SchemaId)
  | SubschemaGlobalStateMismatch (t : GlobalStateType)
  | SubschemaAssignmentTypeMismatch (t : AssignmentType)
  | SubschemaValencyTypeMismatch (t : ValencyType)
  | SubschemaTransitionTypeMismatch (t : TransitionType)
  | SubschemaExtensionTypeMismatch (t : ExtensionType)
  | SubschemaOpGlobalStateMismatch (op : OpType) (t : GlobalStateType)
  | SubschemaOpInputMismatch (op : OpType) (t : AssignmentType)
  | SubschemaOpRedeemMismatch (op : OpType) (t : ValencyType)
  | SubschemaOpAssignmentsMismatch (op : OpType) (t : AssignmentType)
  | SubschemaOpValencyMismatch (op : OpType) (t : ValencyType)
  | SchemaUnknownExtensionType (opid : OpId) (t : ExtensionType)
  | SchemaUnknownTransitionType (opid : OpId) (t : TransitionType)
  | SchemaUnknownGlobalStateType (opid : OpId) (t : GlobalStateType)
  | SchemaUnknownAssignmentType (opid : OpId) (t : AssignmentType)
  | SchemaUnknownValencyType (opid : OpId) (t : ValencyType)
  | SchemaGlobalStateOccurrences (opid : OpId) (t : GlobalStateType) (m : OccurrencesMismatch)
  | SchemaInputOccurrences (opid : OpId) (t : AssignmentType) (m : OccurrencesMismatch)
  | SchemaAssignmentOccurrences (opid : OpId) (t : AssignmentType) (m : OccurrencesMismatch)
  | SchemaTypeSystem
  | OperationAbsent (opid : OpId)
  | TransitionAbsent (opid : OpId)
  | BundleInvalid (b : BundleId)
  | NotAnchored (opid : OpId)
  | NotInAnchor (opid : OpId) (txid : Txid)
  | NoPrevState (opid : OpId) (prev_id : OpId) (state_type : AssignmentType)
  | NoPrevOut (opid : OpId) (o : Opout)
  | ConfidentialSeal (o : Opout)
  | MpcInvalid (opid : OpId) (txid : Txid)
  | SealNoWitnessTx (txid : Txid)
  | SealInvalid (opid : OpId) (txid : Txid) (e : SealsVerifyError)
  | AnchorInvalid (opid : OpId) (txid : Txid) (e : AnchorVerifyError)
  | ValencyNoParent (opid : OpId) (prev_id : OpId) (valency : ValencyType)
  | NoPrevValency (opid : OpId) (prev_id : OpId) (valency : ValencyType)
  | StateTypeMismatch (opid : OpId) (state_type : AssignmentType)
      (expected : StateType) (found : StateType)
  | FungibleTypeMismatch (opid : OpId) (state_type : AssignmentType)
      (expected : FungibleType) (found : FungibleType)
  | BulletproofsInvalid (opid : OpId) (idx : Nat) (msg : String)
  | ScriptFailure (opid : OpId) (msg : String)
  | Custom (msg : String)
  deriving DecidableEq

/-- The `Warning` enum of `validation/status.rs`. -/
inductive Warning
  | EndpointDuplication (opid : OpId) (sl : SecretSeal)
  | EndpointTransitionSealNotFound (opid : OpId) (sl : SecretSeal)
  | ExcessiveNode (opid : OpId)
  | EndpointTransactionMissed (txid : Txid)
  | Custom (msg : String)
  deriving DecidableEq

/-- The `Info` enum of `validation/status.rs`. -/
inductive Info
  | UncheckableConfidentialState (opid : OpId) (idx : Nat)
  | Custom (msg : String)
  deriving DecidableEq

/-- The `Validity` enum of `validation/status.rs`, in declaration order. -/
inductive Validity
  | Valid
  | ValidExceptEndpoints
  | UnresolvedTransactions
  | Invalid
  deriving DecidableEq, Fintype

/-- The `repr(u8)` discriminant of `Validity`, fixed by the declaration order. -/
def Validity.discriminant : Validity → Nat
  | .Valid => 0
  | .ValidExceptEndpoints => 1
  | .UnresolvedTransactions => 2
  | .Invalid => 3

/-- The derived `Ord` of `Validity`: comparison by declaration-order discriminant. -/
def Validity.lt (a b : Validity) : Bool := decide (a.discriminant < b.discriminant)

/-- The `Status` accumulator of `validation/status.rs`: five ordered sequences. -/
structure Status where
  unresolved_txids : List Txid
  unmined_endpoint_txids : List Txid
  failures : List Failure
  warnings : List Warning
  info : List Info
  deriving DecidableEq

/-- The derived `Default` of `Status`: all five sequences empty. -/
def Status.mkDefault : Status := ⟨[], [], [], [], []⟩

/-- `Status::new()` — the empty accumulator (delegates to the default). -/
def Status.new : Status := Status.mkDefault

/-- `impl AddAssign for Status`: `+=` extends every one of the five sequences of the
left operand with the corresponding sequence of the right operand. -/
def Status.add_assign (s rhs : Status) : Status :=
  { unresolved_txids := s.unresolved_txids ++ rhs.unresolved_txids
    unmined_endpoint_txids := s.unmined_endpoint_txids ++ rhs.unmined_endpoint_txids
    failures := s.failures ++ rhs.failures
    warnings := s.warnings ++ rhs.warnings
    info := s.info ++ rhs.info }

/-- `Status::from_error`: a single-failure status. -/
def Status.from_error (v : Failure) : Status :=
  { unresolved_txids := []
    unmined_endpoint_txids := []
    failures := [v]
    warnings := []
    info := [] }

/-- `Status::with_failure`: a single-failure status over the default. -/
def Status.with_failure (failure : Failure) : Status :=
  { Status.mkDefault with failures := [failure] }

/-- `Status::add_failure`: push one failure at the end; returns the status for chaining. -/
def Status.add_failure (s : Status) (failure : Failure) : Status :=
  { s with failures := s.failures ++ [failure] }

/-- `Status::add_warning`: push one warning at the end; returns the status for chaining. -/
def Status.add_warning (s : Status) (warning : Warning) : Status :=
  { s with warnings := s.warnings ++ [warning] }

/-- `Status::add_info`: push one info entry at the end; returns the status for chaining. -/
def Status.add_info (s : Status) (i : Info) : Status :=
  { s with info := s.info ++ [i] }

/-- `Status::validity()` exactly as in the source: failures empty ⇒ check unmined endpoint
txids; failures present ⇒ check unresolved txids. -/
def Status.validity (s : Status) : Validity :=
  if s.failures.isEmpty then
    if s.unmined_endpoint_txids.isEmpty then Validity.Valid
    else Validity.ValidExceptEndpoints
  else if s.unresolved_txids.isEmpty then Validity.Invalid
  else Validity.UnresolvedTransactions

/-- Modelled from the spec: global state schema = occurrence bound plus value-type
constraint (its defining file is not under the sources). -/
structure GlobalStateSchema where
  occurrences : Occurrences
  semId : Nat
  deriving DecidableEq

/-- Modelled from the spec: owned-state schema: kind (declarative / fungible /
structured) plus value-type constraint (its defining file is not under the sources). -/
inductive StateSchema
  | declarative (semId : Nat)
  | fungible (ft : FungibleType)
  | structured (semId : Nat)
  deriving DecidableEq

/-- Modelled from the spec: genesis schema declares which global/owned/valency types and
occurrence bounds a genesis operation must use. -/
structure GenesisSchema where
  globals : List (GlobalStateType × Occurrences)
  assignments : List (AssignmentType × Occurrences)
  valencies : List ValencyType
  deriving DecidableEq

/-- Modelled from the spec: transition schema with occurrence bounds for globals, inputs
and assignments, and a set of exposed valencies. -/
structure TransitionSchema where
  globals : List (GlobalStateType × Occurrences)
  inputs : List (AssignmentType × Occurrences)
  assignments : List (AssignmentType × Occurrences)
  valencies : List ValencyType
  deriving DecidableEq

/-- The derived `Default` of `TransitionSchema`: all maps and sets empty. -/
def TransitionSchema.mkDefault : TransitionSchema := ⟨[], [], [], []⟩

/-- Modelled from the spec: extension schema with globals, redeemed valencies,
assignments and exposed valencies. -/
structure ExtensionSchema where
  globals : List (GlobalStateType × Occurrences)
  redeems : List ValencyType
  assignments : List (AssignmentType × Occurrences)
  valencies : List ValencyType
  deriving DecidableEq

/-- Embedded strict type system: an opaque canonical byte blob per the spec. -/
abbrev TypeSystem := List Nat

/-- Embedded validation script: an opaque canonical byte blob per the spec. -/
abbrev Script := List Nat

/-- Sorted insert into a key-ordered association list, replacing the value at an
existing key. -/
def tinyInsertSorted {α : Type} : List (Nat × α) → Nat → α → List (Nat × α)
  | [], k, v => [(k, v)]
  | (k₂, v₂) :: rest, k, v =>
    if k < k₂ then (k, v) :: (k₂, v₂) :: rest
    else if k = k₂ then (k, v) :: rest
    else (k₂, v₂) :: tinyInsertSorted rest k v

/-- Modelled from the amplify crate used by the source: `TinyOrdMap::insert` replaces the
value at an existing key, adds a new key only while under the 255-entry capacity, and
otherwise reports an error, which `.ok()` discards leaving the map unchanged. -/
def tinyInsert {α : Type} (l : List (Nat × α)) (k : Nat) (v : α) : List (Nat × α) :=
  if (l.lookup k).isSome || decide (l.length < 255) then tinyInsertSorted l k v else l

/-- The `Schema<Root>` structure of `schema.rs`; the confined ordered maps are modelled
as key-sorted association lists and the component types as above. -/
structure Schema (Root : Type) where
  ffv : Nat
  subset_of : Option Root
  global_types : List (GlobalStateType × GlobalStateSchema)
  owned_types : List (AssignmentType × StateSchema)
  valency_types : List ValencyType
  genesis : GenesisSchema
  extensions : List (ExtensionType × ExtensionSchema)
  transitions : List (TransitionType × TransitionSchema)
  type_system : TypeSystem
  script : Script

/-- `type RootSchema = Schema<()>` from `schema.rs`. -/
abbrev RootSchema := Schema Unit

/-- `type SubSchema = Schema<RootSchema>` from `schema.rs`. -/
abbrev SubSchema := Schema RootSchema

/-- Length-prefixed frame making concatenated encodings uniquely parseable. -/
def frame (l : List Nat) : List Nat := l.length :: l

/-- Canonical encoding of an occurrence bound. -/
def encOccurrences (o : Occurrences) : List Nat :=
  match o.occMax with
  | none => [o.occMin, 0]
  | some m => [o.occMin, 1, m]

/-- Canonical encoding of a key-ordered association list, entry-wise framed. -/
def encPairList {α : Type} (f : α → List Nat) (l : List (Nat × α)) : List Nat :=
  frame ((l.map fun p => frame (p.1 :: f p.2)).flatten)

/-- Canonical encoding of a global state schema. -/
def encGlobalStateSchema (g : GlobalStateSchema) : List Nat :=
  frame (encOccurrences g.occurrences) ++ [g.semId]

/-- Canonical encoding of an owned-state schema. -/
def encStateSchema : StateSchema → List Nat
  | .declarative semId => [0, semId]
  | .fungible ft => [1, ft]
  | .structured semId => [2, semId]

/-- Canonical encoding of a genesis schema. -/
def encGenesisSchema (g : GenesisSchema) : List Nat :=
  frame (encPairList encOccurrences g.globals) ++
    frame (encPairList encOccurrences g.assignments) ++ frame g.valencies

/-- Canonical encoding of a transition schema. -/
def encTransitionSchema (t : TransitionSchema) : List Nat :=
  frame (encPairList encOccurrences t.globals) ++
    frame (encPairList encOccurrences t.inputs) ++
    frame (encPairList encOccurrences t.assignments) ++ frame t.valencies

/-- Canonical encoding of an extension schema. -/
def encExtensionSchema (e : ExtensionSchema) : List Nat :=
  frame (encPairList encOccurrences e.globals) ++ frame e.redeems ++
    frame (encPairList encOccurrences e.assignments) ++ frame e.valencies

/-- Modelled from the spec: the canonical strict encoding of a schema. The external
strict-encoding collaborator is specified as an opaque deterministic encoding from value
to bytes; modelled as the length-framed concatenation of the fields in declaration
order, with the root encoded by the supplied `encRoot`. -/
def strictEncode {Root : Type} (encRoot : Root → List Nat) (s : Schema Root) : List Nat :=
  frame [s.ffv] ++
    frame (match s.subset_of with | none => [0] | some r => 1 :: encRoot r) ++
    frame (encPairList encGlobalStateSchema s.global_types) ++
    frame (encPairList encStateSchema s.owned_types) ++
    frame s.valency_types ++
    frame (encGenesisSchema s.genesis) ++
    frame (encPairList encExtensionSchema s.extensions) ++
    frame (encPairList encTransitionSchema s.transitions) ++
    frame s.type_system ++
    frame s.script

/-- The fixed domain-separation tag of the schema commitment: the bytes of
"urn:lnpbp:rgb:schema:v01#202302A" from `schema.rs`. -/
def schemaCommitTag : List Nat := "urn:lnpbp:rgb:schema:v01#202302A".toList.map Char.toNat

/-- Modelled from the spec: the external commit-verify tagged commitment producing the
schema id; the spec treats canonical encoding plus commitment as deterministic and
injective over canonical form, so the commitment is modelled as the domain tag followed
by the canonical encoding itself. -/
def commitment_id {Root : Type} (encRoot : Root → List Nat) (s : Schema Root) : List Nat :=
  schemaCommitTag ++ strictEncode encRoot s

/-- `Schema::schema_id()` from `schema.rs`: delegates to the commitment id. -/
def Schema.schema_id {Root : Type} (encRoot : Root → List Nat) (s : Schema Root) :
    List Nat :=
  commitment_id encRoot s

/-- `impl PartialEq for Schema` from `schema.rs`: equality of the schema ids, never
field-wise. -/
def Schema.beqById {Root : Type} (encRoot : Root → List Nat) (a b : Schema Root) : Bool :=
  Schema.schema_id encRoot a == Schema.schema_id encRoot b

/-- Lexicographic byte comparison: the derived `Ord` of the 32-byte id wrapper. -/
def compareBytes : List Nat → List Nat → Ordering
  | [], [] => .eq
  | [], _ :: _ => .lt
  | _ :: _, [] => .gt
  | a :: xs, b :: ys =>
    match compare a b with
    | .eq => compareBytes xs ys
    | o => o

/-- `impl Ord for Schema` from `schema.rs`: comparison of the schema ids. -/
def Schema.cmp {Root : Type} (encRoot : Root → List Nat) (a b : Schema Root) : Ordering :=
  compareBytes (Schema.schema_id encRoot a) (Schema.schema_id encRoot b)

/-- `impl PartialOrd for Schema` from `schema.rs`: always `Some(self.cmp(other))`. -/
def Schema.partial_cmp {Root : Type} (encRoot : Root → List Nat) (a b : Schema Root) :
    Option Ordering :=
  some (Schema.cmp encRoot a b)

/-- `Schema::blank_transition()` from `schema.rs`: start from the default transition
schema and, for every key of `owned_types`, insert the (0, unbounded) bound into both
the inputs and the assignments maps (insert errors discarded by `.ok()`). -/
def Schema.blank_transition {Root : Type} (s : Schema Root) : TransitionSchema :=
  (s.owned_types.map Prod.fst).foldl
    (fun sch id =>
      { sch with
        inputs := tinyInsert sch.inputs id Occurrences.noneOrMore
        assignments := tinyInsert sch.assignments id Occurrences.noneOrMore })
    TransitionSchema.mkDefault

/-- The base58 alphabet (Bitcoin variant) used by the external baid58 crate. -/
def base58Alphabet : List Char :=
  "123456789ABCDEFGHJKLMNPQRSTUVWXYZabcdefghijkmnopqrstuvwxyz".toList

/-- The character of a base58 digit. -/
def b58Char (d : Nat) : Char := base58Alphabet.getD d '1'

/-- The digit value of a base58 character, if it is one. -/
def b58Digit (c : Char) : Option Nat := base58Alphabet.findIdx? (fun x => x == c)

/-- Modelled from the spec: the base58 rendering of a byte payload by the external baid58
crate — one alphabet-zero character per leading zero byte, then the base58 digits of the
payload read as a big-endian number. -/
def b58Body (payload : List Nat) : List Char :=
  List.replicate (payload.takeWhile (fun b => b == 0)).length '1' ++
    (Nat.digits 58 (Nat.ofDigits 256 payload.reverse)).reverse.map b58Char

/-- The chunk sizes of `CHUNKING_32` from the baid58 crate: a first chunk of 6
characters, then chunks of 8, as shown by the display test vectors in `schema.rs`. -/
def chunkSizes : List Nat := [6, 8, 8, 8, 8, 8]

/-- Split a character run into chunks of the given sizes (remainder in a final chunk). -/
def chunkify : List Nat → List Char → List (List Char)
  | _, [] => []
  | [], c :: cs => [c :: cs]
  | sz :: rest, c :: cs =>
    if (c :: cs).length ≤ sz then [c :: cs]
    else (c :: cs).take sz :: chunkify rest ((c :: cs).drop sz)

/-- Join chunks with the dash separator. -/
def joinDashed : List (List Char) → List Char
  | [] => []
  | [c] => c
  | c :: cs => c ++ '-' :: joinDashed cs

/-- Modelled from the spec: the word list of the external mnemonic dependency, a fixed
list of lowercase words. -/
def mnemonicWords : List (List Char) :=
  ["comedy".toList, "vega".toList, "mary".toList, "distant".toList, "thermos".toList,
   "arctic".toList, "abandon".toList, "zebra".toList]

/-- Modelled from the spec: the three-word dash-separated mnemonic checksum suffix,
derived from a byte checksum of the payload. -/
def mnemonic (payload : List Nat) : List Char :=
  let s := payload.foldl (· + ·) 0
  joinDashed
    [mnemonicWords.getD (s % mnemonicWords.length) [],
     mnemonicWords.getD (s / 256 % mnemonicWords.length) [],
     mnemonicWords.getD (s / 65536 % mnemonicWords.length) []]

/-- `impl Display for SchemaId` from `schema.rs`: unless the alternate flag is set, write
the "urn:lnp-bp:sc:" namespace; then the chunked baid58 body; then, unless the minus
flag is set, the `#`-separated mnemonic (the baid58 rendering itself is modelled from
the spec). -/
def SchemaId.display (alternate signMinus : Bool) (id : SchemaId) : List Char :=
  (if alternate then [] else "urn:lnp-bp:sc:".toList) ++
    joinDashed (chunkify chunkSizes (b58Body id)) ++
    (if signMinus then [] else '#' :: mnemonic id)

/-- Modelled from the spec: the structured parse errors of the external baid58 crate. -/
inductive Baid58ParseError
  | invalidHri
  | invalidChunkCount
  | invalidCharacter
  | invalidLength
  deriving DecidableEq

/-- Drop an expected leading run from a character list, or report that it is absent. -/
def dropLeading : List Char → List Char → Option (List Char)
  | [], s => some s
  | _ :: _, [] => none
  | p :: ps, c :: cs => if p = c then dropLeading ps cs else none

/-- Fueled worker of `trimStartMatches`; the fuel bounds the number of strips. -/
def trimStartAux (pat : List Char) : Nat → List Char → List Char
  | 0, s => s
  | fuel + 1, s =>
    match dropLeading pat s with
    | some rest => if pat.isEmpty then s else trimStartAux pat fuel rest
    | none => s

/-- Rust `str::trim_start_matches`: repeatedly remove the pattern from the front while it
matches (each strip of a non-empty pattern shortens the string, so the length is enough
fuel). -/
def trimStartMatches (pat s : List Char) : List Char := trimStartAux pat s.length s

/-- Modelled from the spec: decode the baid58 body once the HRI is gone — ignore a
mnemonic suffix, accept the run plain or dash-chunked, decode the base58 characters into
exactly 32 bytes, and report malformed input as a structured error. -/
def baid58DecodeBody (t : List Char) : Except Baid58ParseError SchemaId :=
  let body := t.takeWhile (fun c => c != '#')
  let payloadChars := body.filter (fun c => c != '-')
  if body ≠ payloadChars ∧ body ≠ joinDashed (chunkify chunkSizes payloadChars) then
    Except.error Baid58ParseError.invalidChunkCount
  else
    match payloadChars.mapM b58Digit with
    | none => Except.error Baid58ParseError.invalidCharacter
    | some ds =>
      let n := Nat.ofDigits 58 ds.reverse
      let bytes :=
        List.replicate (payloadChars.takeWhile (fun c => c == '1')).length 0 ++
          (Nat.digits 256 n).reverse
      if bytes.length = 32 then Except.ok bytes
      else Except.error Baid58ParseError.invalidLength

/-- Modelled from the spec: `from_baid58_maybe_chunked_str` of the external baid58 crate
with `:` as the HRI separator and `#` as the mnemonic separator — strip an optional
"sc" HRI (a wrong HRI is a structured error), then decode the body. -/
def fromBaid58MaybeChunkedStr (s : List Char) : Except Baid58ParseError SchemaId :=
  match dropLeading "sc:".toList s with
  | some rest => baid58DecodeBody rest
  | none =>
    if ':' ∈ s then Except.error Baid58ParseError.invalidHri else baid58DecodeBody s

/-- `impl FromStr for SchemaId` from `schema.rs`: trim the known "urn:lnp-bp:" namespace
from the front, then decode the maybe-chunked baid58 string. -/
def SchemaId.from_str (s : List Char) : Except Baid58ParseError SchemaId :=
  fromBaid58MaybeChunkedStr (trimStartMatches "urn:lnp-bp:".toList s)

/-- Claim C1: `Status::validity()` follows the four-row truth table: no failures and no
unmined endpoint txids gives `Valid`; no failures with some unmined endpoint txid gives
`ValidExceptEndpoints` (whatever the unresolved txids); failures with no unresolved txid
give `Invalid`; failures with some unresolved txid give `UnresolvedTransactions`. -/
theorem validity_truth_table (s : Status) :
    (s.failures = [] → s.unmined_endpoint_txids = [] → s.validity = Validity.Valid) ∧
    (s.failures = [] → s.unmined_endpoint_txids ≠ [] →
      s.validity = Validity.ValidExceptEndpoints) ∧
    (s.failures ≠ [] → s.unresolved_txids = [] → s.validity = Validity.Invalid) ∧
    (s.failures ≠ [] → s.unresolved_txids ≠ [] →
      s.validity = Validity.UnresolvedTransactions) := by
  rcases s with ⟨u, m, f, w, i⟩
  refine ⟨?_, ?_, ?_, ?_⟩ <;> intro h1 h2 <;>
    simp_all [Status.validity, List.isEmpty_iff]

/-- Witness for C1: each of the four truth-table rows realised on a concrete status. -/
theorem validity_truth_table_rows :
    Status.validity ⟨[], [], [], [], []⟩ = Validity.Valid ∧
    Status.validity ⟨[List.replicate 32 0], [List.replicate 32 1], [], [], []⟩ =
      Validity.ValidExceptEndpoints ∧
    Status.validity ⟨[], [], [Failure.SchemaTypeSystem], [], []⟩ = Validity.Invalid ∧
    Status.validity ⟨[List.replicate 32 0], [], [Failure.SchemaTypeSystem], [], []⟩ =
      Validity.UnresolvedTransactions :=
  ⟨(validity_truth_table _).1 rfl rfl,
   (validity_truth_table _).2.1 rfl (by simp),
   (validity_truth_table _).2.2.1 (by simp) rfl,
   (validity_truth_table _).2.2.2 (by simp) (by simp)⟩

/-- Claim C2: `+=` concatenates all five sequences of the right operand onto the left,
preserving order, and the merge is associative. -/
theorem add_assign_concat_assoc (a b c : Status) :
    ((a.add_assign b).unresolved_txids = a.unresolved_txids ++ b.unresolved_txids ∧
     (a.add_assign b).unmined_endpoint_txids =
       a.unmined_endpoint_txids ++ b.unmined_endpoint_txids ∧
     (a.add_assign b).failures = a.failures ++ b.failures ∧
     (a.add_assign b).warnings = a.warnings ++ b.warnings ∧
     (a.add_assign b).info = a.info ++ b.info) ∧
    (a.add_assign b).add_assign c = a.add_assign (b.add_assign c) := by
  refine ⟨⟨rfl, rfl, rfl, rfl, rfl⟩, ?_⟩
  simp [Status.add_assign]

/-- Claim C8: `Status::validity()` depends only on the failures, unresolved-txid and
unmined-endpoint-txid sequences; warnings and info never affect the verdict. -/
theorem validity_ignores_warnings_info (s t : Status)
    (hf : s.failures = t.failures)
    (hu : s.unresolved_txids = t.unresolved_txids)
    (hm : s.unmined_endpoint_txids = t.unmined_endpoint_txids) :
    s.validity = t.validity := by
  unfold Status.validity
  rw [hf, hu, hm]

/-- Witness for C8: a status with a warning and an info entry has the same verdict as the
empty status. -/
theorem validity_ignores_warnings_info_example :
    Status.validity ⟨[], [], [], [Warning.ExcessiveNode []],
        [Info.UncheckableConfidentialState [] 0]⟩ =
      Status.validity ⟨[], [], [], [], []⟩ :=
  validity_ignores_warnings_info _ _ rfl rfl rfl

/-- Claim C9: `add_failure`, `add_warning` and `add_info` each append exactly one entry at
the end of their own sequence and leave the other four sequences unchanged. -/
theorem add_entry_appends_one_and_frames (s : Status) (f : Failure) (w : Warning)
    (i : Info) :
    ((s.add_failure f).failures = s.failures ++ [f] ∧
     (s.add_failure f).unresolved_txids = s.unresolved_txids ∧
     (s.add_failure f).unmined_endpoint_txids = s.unmined_endpoint_txids ∧
     (s.add_failure f).warnings = s.warnings ∧
     (s.add_failure f).info = s.info) ∧
    ((s.add_warning w).warnings = s.warnings ++ [w] ∧
     (s.add_warning w).unresolved_txids = s.unresolved_txids ∧
     (s.add_warning w).unmined_endpoint_txids = s.unmined_endpoint_txids ∧
     (s.add_warning w).failures = s.failures ∧
     (s.add_warning w).info = s.info) ∧
    ((s.add_info i).info = s.info ++ [i] ∧
     (s.add_info i).unresolved_txids = s.unresolved_txids ∧
     (s.add_info i).unmined_endpoint_txids = s.unmined_endpoint_txids ∧
     (s.add_info i).failures = s.failures ∧
     (s.add_info i).warnings = s.warnings) :=
  ⟨⟨rfl, rfl, rfl, rfl, rfl⟩, ⟨rfl, rfl, rfl, rfl, rfl⟩, ⟨rfl, rfl, rfl, rfl, rfl⟩⟩

/-- Claim C10: the derived comparison of `Validity` is the strict total order fixed by the
declaration, from best to worst: Valid, ValidExceptEndpoints, UnresolvedTransactions,
Invalid. -/
theorem validity_declaration_order :
    (Validity.lt Validity.Valid Validity.ValidExceptEndpoints = true ∧
     Validity.lt Validity.ValidExceptEndpoints Validity.UnresolvedTransactions = true ∧
     Validity.lt Validity.UnresolvedTransactions Validity.Invalid = true) ∧
    (∀ a b : Validity, Validity.lt a b = true ∨ a = b ∨ Validity.lt b a = true) ∧
    (∀ a b c : Validity,
      Validity.lt a b = true → Validity.lt b c = true → Validity.lt a c = true) ∧
    (∀ a : Validity, Validity.lt a a = false) := by decide

/-- Witness for C10: by transitivity of the declared order, Valid is strictly better than
Invalid. -/
theorem validity_declaration_order_example :
    Validity.lt Validity.Valid Validity.Invalid = true :=
  validity_declaration_order.2.2.1 Validity.Valid Validity.ValidExceptEndpoints
    Validity.Invalid (by decide) (by decide)

/-- Claim C3: two schemas have the same id exactly when they have the same canonical
strict encoding — the id is a commitment over the canonical encoding under the fixed
domain tag, injective over canonical form. -/
theorem schema_id_eq_iff_encoding_eq {Root : Type} (encRoot : Root → List Nat)
    (s t : Schema Root) :
    Schema.schema_id encRoot s = Schema.schema_id encRoot t ↔
      strictEncode encRoot s = strictEncode encRoot t := by
  unfold Schema.schema_id commitment_id
  exact ⟨fun h => List.append_cancel_left h, fun h => by rw [h]⟩

/-- Claim C4: for schemas over the same root kind, equality holds exactly when the schema
ids are equal, and the order comparison is the comparison of the schema ids — equality
and ordering route through the commitment id. -/
theorem schema_eq_and_ord_via_id {Root : Type} (encRoot : Root → List Nat)
    (s t : Schema Root) :
    (Schema.beqById encRoot s t = true ↔
       Schema.schema_id encRoot s = Schema.schema_id encRoot t) ∧
    Schema.cmp encRoot s t =
      compareBytes (Schema.schema_id encRoot s) (Schema.schema_id encRoot t) ∧
    Schema.partial_cmp encRoot s t = some (Schema.cmp encRoot s t) := by
  refine ⟨?_, rfl, rfl⟩
  simp [Schema.beqById]

/-- Inserting a key greater than every key of a sorted association list appends it at
the end. -/
theorem tinyInsertSorted_of_gt {α : Type} (k : Nat) (v : α) :
    ∀ l : List (Nat × α), (∀ p ∈ l, p.1 < k) → tinyInsertSorted l k v = l ++ [(k, v)] := by
  intro l
  induction l with
  | nil => intro _; rfl
  | cons p rest ih =>
    intro h
    obtain ⟨k₂, v₂⟩ := p
    have hk : k₂ < k := h (k₂, v₂) (List.mem_cons_self _ _)
    have h1 : ¬k < k₂ := by omega
    have h2 : ¬k = k₂ := by omega
    simp only [tinyInsertSorted, if_neg h1, if_neg h2, List.cons_append,
      ih fun p hp => h p (List.mem_cons_of_mem _ hp)]

/-- Folding fresh ascending keys into a small map under capacity appends each of them,
bound to the given value. -/
theorem foldl_tinyInsert_ascending {α : Type} (v : α) :
    ∀ (ks : List Nat) (l : List (Nat × α)),
      ks.Pairwise (· < ·) →
      (∀ p ∈ l, ∀ k ∈ ks, p.1 < k) →
      l.length + ks.length ≤ 255 →
      ks.foldl (fun m id => tinyInsert m id v) l = l ++ ks.map (fun k => (k, v)) := by
  intro ks
  induction ks with
  | nil => intro l _ _ _; simp
  | cons k ks ih =>
    intro l hpw hfresh hlen
    have hcap : l.length < 255 := by
      simp only [List.length_cons] at hlen; omega
    have hstep : tinyInsert l k v = l ++ [(k, v)] := by
      rw [tinyInsert, if_pos]
      · exact tinyInsertSorted_of_gt k v l fun p hp => hfresh p hp k (List.mem_cons_self k ks)
      · simp [hcap]
    rw [List.foldl_cons, hstep,
      ih (l ++ [(k, v)]) (List.pairwise_cons.mp hpw).2 ?fresh ?len]
    · simp
    case fresh =>
      intro p hp k₂ hk₂
      rcases List.mem_append.mp hp with hpl | hpk
      · exact hfresh p hpl k₂ (List.mem_cons_of_mem _ hk₂)
      · simp only [List.mem_singleton] at hpk
        subst hpk
        exact (List.pairwise_cons.mp hpw).1 k₂ hk₂
    case len =>
      simp only [List.length_append, List.length_cons, List.length_nil] at hlen ⊢
      omega

/-- The blank-transition fold acts componentwise on the inputs and assignments maps and
leaves the other components unchanged. -/
theorem blankFold_components (ks : List Nat) :
    ∀ sch : TransitionSchema,
      ks.foldl
          (fun sch id =>
            { sch with
              inputs := tinyInsert sch.inputs id Occurrences.noneOrMore
              assignments := tinyInsert sch.assignments id Occurrences.noneOrMore })
          sch =
        { sch with
          inputs := ks.foldl (fun m id => tinyInsert m id Occurrences.noneOrMore) sch.inputs
          assignments :=
            ks.foldl (fun m id => tinyInsert m id Occurrences.noneOrMore) sch.assignments } := by
  induction ks with
  | nil => intro sch; rfl
  | cons k ks ih =>
    intro sch
    rw [List.foldl_cons, ih]
    rfl

/-- Claim C5: on a schema whose owned-types map has N assignment-type keys (a valid
confined ordered map: strictly ascending keys, at most 255 entries), `blank_transition()`
produces a transition schema whose inputs and assignments maps each hold exactly those N
keys, every one bound to the (0, unbounded) `NoneOrMore` bound, which admits any
non-negative count. -/
theorem blank_transition_grants_all_owned {Root : Type} (s : Schema Root)
    (hsorted : (s.owned_types.map Prod.fst).Pairwise (· < ·))
    (hlen : s.owned_types.length ≤ 255) :
    s.blank_transition.inputs =
      s.owned_types.map (fun p => (p.1, Occurrences.noneOrMore)) ∧
    s.blank_transition.assignments =
      s.owned_types.map (fun p => (p.1, Occurrences.noneOrMore)) ∧
    s.blank_transition.globals = [] ∧
    s.blank_transition.valencies = [] ∧
    ∀ n : Nat, Occurrences.noneOrMore.check n = true := by
  have hfold :=
    foldl_tinyInsert_ascending Occurrences.noneOrMore (s.owned_types.map Prod.fst) []
      hsorted (by simp) (by simpa using hlen)
  unfold Schema.blank_transition
  rw [blankFold_components]
  refine ⟨?_, ?_, rfl, rfl, fun n => by simp [Occurrences.check, Occurrences.noneOrMore]⟩ <;>
    simp [TransitionSchema.mkDefault, hfold, List.map_map, Function.comp]

/-- Witness for C5: the blank transition of a concrete two-owned-type schema binds
exactly those two type ids to the (0, unbounded) bound in both maps. -/
theorem blank_transition_example :
    (Schema.blank_transition
          (⟨0, none, [], [(1, StateSchema.declarative 7), (5, StateSchema.fungible 8)],
            [], ⟨[], [], []⟩, [], [], [], []⟩ : Schema Unit)).inputs =
        [(1, Occurrences.noneOrMore), (5, Occurrences.noneOrMore)] ∧
      (Schema.blank_transition
          (⟨0, none, [], [(1, StateSchema.declarative 7), (5, StateSchema.fungible 8)],
            [], ⟨[], [], []⟩, [], [], [], []⟩ : Schema Unit)).assignments =
        [(1, Occurrences.noneOrMore), (5, Occurrences.noneOrMore)] := by
  have h :=
    blank_transition_grants_all_owned
      (⟨0, none, [], [(1, StateSchema.declarative 7), (5, StateSchema.fungible 8)],
        [], ⟨[], [], []⟩, [], [], [], []⟩ : Schema Unit) (by decide) (by decide)
  exact ⟨by rw [h.1]; rfl, by rw [h.2.1]; rfl⟩

/-- Dropping a leading run from its own extension yields the remainder. -/
theorem dropLeading_append : ∀ p r : List Char, dropLeading p (p ++ r) = some r := by
  intro p
  induction p with
  | nil => intro r; rfl
  | cons c cs ih => intro r; simp [dropLeading, ih]

/-- `dropLeading` succeeds only on an actual extension of the pattern. -/
theorem dropLeading_eq_some :
    ∀ p s r : List Char, dropLeading p s = some r → s = p ++ r := by
  intro p
  induction p with
  | nil =>
    intro s r h
    simp only [dropLeading, Option.some.injEq] at h
    simp [h]
  | cons c cs ih =>
    intro s r h
    cases s with
    | nil => simp [dropLeading] at h
    | cons x xs =>
      simp only [dropLeading] at h
      by_cases hx : c = x
      · rw [if_pos hx] at h
        rw [List.cons_append, ← hx, ih xs r h]
      · rw [if_neg hx] at h
        exact absurd h (by simp)

/-- A pattern containing a character absent from the string never matches its front. -/
theorem dropLeading_none_of_not_mem {a : Char} {pat s : List Char} (hc : a ∈ pat)
    (hs : a ∉ s) : dropLeading pat s = none := by
  cases h : dropLeading pat s with
  | none => rfl
  | some r =>
    exact absurd (dropLeading_eq_some pat s r h ▸ List.mem_append_left r hc) hs

/-- When the pattern does not match the front, trimming is the identity at any fuel. -/
theorem trimStartAux_of_none {pat s : List Char} (h : dropLeading pat s = none) :
    ∀ fuel : Nat, trimStartAux pat fuel s = s := by
  intro fuel
  cases fuel with
  | zero => rfl
  | succ fuel => simp [trimStartAux, h]

/-- When the pattern does not match the front, `trimStartMatches` is the identity. -/
theorem trimStartMatches_of_none {pat s : List Char} (h : dropLeading pat s = none) :
    trimStartMatches pat s = s :=
  trimStartAux_of_none h s.length

/-- Trimming strips one leading copy of the pattern when no second copy follows. -/
theorem trimStartMatches_strip_once (pat r : List Char) (hne : pat ≠ [])
    (hnone : dropLeading pat r = none) : trimStartMatches pat (pat ++ r) = r := by
  obtain ⟨p, ps, rfl⟩ := List.exists_cons_of_ne_nil hne
  show trimStartAux (p :: ps) (p :: ps ++ r).length (p :: ps ++ r) = r
  have hfuel : (p :: ps ++ r).length = (ps.length + r.length) + 1 := by
    simp [Nat.add_comm]
  rw [hfuel]
  simp only [trimStartAux, dropLeading_append, List.isEmpty_cons]
  exact trimStartAux_of_none hnone _

/-- A number written only with zero digits is zero. -/
theorem ofDigits_replicate_zero : ∀ b k : Nat, Nat.ofDigits b (List.replicate k 0) = 0 := by
  intro b k
  induction k with
  | zero => rfl
  | succ k ih => simp [List.replicate_succ, Nat.ofDigits_cons, ih]

/-- Every base58 digit character belongs to the alphabet. -/
theorem b58Char_mem : ∀ d : Nat, b58Char d ∈ base58Alphabet := by
  intro d
  unfold b58Char
  rcases Nat.lt_or_ge d base58Alphabet.length with h | h
  · rw [List.getD_eq_getElem _ _ h]
    exact List.getElem_mem h
  · rw [List.getD_eq_default _ _ h]
    decide

/-- No alphabet character is a dash, a colon or a hash. -/
theorem alphabet_chars : ∀ c ∈ base58Alphabet, ¬c = '-' ∧ ¬c = ':' ∧ ¬c = '#' := by
  decide

/-- Decoding inverts encoding on every base58 digit. -/
theorem b58Digit_b58Char : ∀ d : Nat, d < 58 → b58Digit (b58Char d) = some d := by
  decide

/-- Only the zero digit is rendered as the alphabet-zero character. -/
theorem b58Char_ne_one : ∀ d : Nat, d < 58 → 0 < d → (b58Char d == '1') = false := by
  decide

/-- Chunking splits a run without losing or reordering characters. -/
theorem chunkify_flatten : ∀ (sizes : List Nat) (s : List Char),
    (chunkify sizes s).flatten = s
  | sizes, [] => by cases sizes <;> simp [chunkify]
  | [], c :: cs => by simp [chunkify]
  | sz :: rest, c :: cs => by
    rw [chunkify]
    split
    · simp
    · simp only [List.flatten_cons, chunkify_flatten rest ((c :: cs).drop sz),
        List.take_append_drop]

/-- Every character of a dash-joined chunk list is a chunk character or the dash. -/
theorem mem_joinDashed : ∀ (chunks : List (List Char)) (c : Char),
    c ∈ joinDashed chunks → c ∈ chunks.flatten ∨ c = '-'
  | [], c, h => by simp [joinDashed] at h
  | [k], c, h => by
    simp only [joinDashed] at h
    exact Or.inl (by simpa using h)
  | k :: k₂ :: ks, c, h => by
    simp only [joinDashed, List.mem_append, List.mem_cons] at h
    rcases h with h | h | h
    · exact Or.inl (by simp [h])
    · exact Or.inr h
    · rcases mem_joinDashed (k₂ :: ks) c h with h₂ | h₂
      · exact Or.inl (by simp at h₂ ⊢; tauto)
      · exact Or.inr h₂

/-- Removing the dashes from a dash-joined chunk list removes exactly the separators. -/
theorem filter_joinDashed : ∀ chunks : List (List Char),
    (joinDashed chunks).filter (fun c => c != '-') =
      chunks.flatten.filter (fun c => c != '-')
  | [] => rfl
  | [k] => by simp [joinDashed]
  | k :: k₂ :: ks => by
    simp only [joinDashed, List.flatten_cons, List.filter_append, List.filter_cons]
    rw [filter_joinDashed (k₂ :: ks)]
    simp

/-- Taking up to a character passes over a run that does not contain it. -/
theorem takeWhile_ne_append (a : Char) :
    ∀ (xs ys : List Char), a ∉ xs →
      (xs ++ a :: ys).takeWhile (fun c => c != a) = xs := by
  intro xs
  induction xs with
  | nil => intro ys _; simp [List.takeWhile_cons]
  | cons x xs ih =>
    intro ys h
    have hx : (x != a) = true :=
      bne_iff_ne.mpr fun hxa => h (by rw [← hxa]; exact List.mem_cons_self x xs)
    simp only [List.cons_append, List.takeWhile_cons, hx, if_true]
    rw [ih ys fun hmem => h (List.mem_cons_of_mem _ hmem)]

/-- Taking up to a character keeps a run that does not contain it whole. -/
theorem takeWhile_ne_self (a : Char) :
    ∀ xs : List Char, a ∉ xs → xs.takeWhile (fun c => c != a) = xs := by
  intro xs
  induction xs with
  | nil => intro _; rfl
  | cons x xs ih =>
    intro h
    have hx : (x != a) = true :=
      bne_iff_ne.mpr fun hxa => h (by rw [← hxa]; exact List.mem_cons_self x xs)
    simp only [List.takeWhile_cons, hx, if_true]
    rw [ih fun hmem => h (List.mem_cons_of_mem _ hmem)]

/-- Taking while a predicate holds passes over a replicated satisfying character. -/
theorem takeWhile_replicate_append (p : Char → Bool) (c : Char) (hp : p c = true) :
    ∀ (z : Nat) (rest : List Char),
      (List.replicate z c ++ rest).takeWhile p =
        List.replicate z c ++ rest.takeWhile p := by
  intro z
  induction z with
  | zero => intro rest; simp
  | succ z ih =>
    intro rest
    simp [List.replicate_succ, List.takeWhile_cons, hp, ih]

/-- A pointwise-defined decoder maps over a list when it succeeds on every element. -/
theorem mapM_b58Digit_of_isSome :
    ∀ l : List Char, (∀ c ∈ l, (b58Digit c).isSome) →
      l.mapM b58Digit = some (l.map fun c => (b58Digit c).getD 0) := by
  intro l
  induction l with
  | nil => intro _; rfl
  | cons c cs ih =>
    intro h
    obtain ⟨d, hd⟩ := Option.isSome_iff_exists.mp (h c (List.mem_cons_self _ _))
    rw [List.mapM_cons, hd, ih fun x hx => h x (List.mem_cons_of_mem _ hx)]
    simp [hd]

/-- The big-endian base58 digit run of a number never starts with the zero character. -/
theorem takeWhile_one_digits (n : Nat) :
    ((Nat.digits 58 n).reverse.map b58Char).takeWhile (fun c => c == '1') = [] := by
  cases hrev : (Nat.digits 58 n).reverse with
  | nil => simp
  | cons d ds =>
    have hdigs : Nat.digits 58 n = ds.reverse ++ [d] := by
      rw [← List.reverse_reverse (Nat.digits 58 n), hrev, List.reverse_cons]
    have hne : n ≠ 0 := by
      intro h0
      rw [h0] at hdigs
      simp at hdigs
    have hd0 : d ≠ 0 := by
      have h2 : (ds.reverse ++ [d]).getLast (by simp) ≠ 0 := by
        rw [← List.getLast_congr (by simp [hdigs]) (by simp) hdigs]
        exact Nat.getLast_digit_ne_zero 58 hne
      simpa [List.getLast_append_singleton] using h2
    have hdlt : d < 58 :=
      Nat.digits_lt_base (by norm_num)
        (by rw [hdigs]; exact List.mem_append_right _ (List.mem_singleton_self d))
    simp [List.takeWhile_cons, b58Char_ne_one d hdlt (Nat.pos_of_ne_zero hd0)]

/-- The head of the run remaining after dropping satisfying elements fails the
predicate. -/
theorem dropWhile_head_not {α : Type} (p : α → Bool) :
    ∀ (l : List α) (x : α) (xs : List α), l.dropWhile p = x :: xs → p x = false := by
  intro l
  induction l with
  | nil => intro x xs h; simp [List.dropWhile] at h
  | cons a as ih =>
    intro x xs h
    rw [List.dropWhile_cons] at h
    by_cases ha : p a = true
    · rw [if_pos ha] at h
      exact ih x xs h
    · rw [if_neg ha] at h
      injection h with h1 _
      rw [← h1]
      simpa using ha

/-- Decoding the base58 rendering of a 32-byte payload recovers the payload: the digit
characters all decode, and reassembling the leading zero bytes with the big-endian
number yields the original bytes. -/
theorem b58Body_decodes (payload : List Nat) (hbytes : ∀ b ∈ payload, b < 256) :
    (b58Body payload).mapM b58Digit =
        some ((b58Body payload).map fun c => (b58Digit c).getD 0) ∧
      List.replicate ((b58Body payload).takeWhile (fun c => c == '1')).length 0 ++
          (Nat.digits 256 (Nat.ofDigits 58
            (((b58Body payload).map fun c => (b58Digit c).getD 0).reverse))).reverse =
        payload := by
  set n := Nat.ofDigits 256 payload.reverse with hn
  set z := (payload.takeWhile (fun b => b == 0)).length with hz
  set digs := (Nat.digits 58 n).reverse with hdigs
  have hbody : b58Body payload = List.replicate z '1' ++ digs.map b58Char := rfl
  have hdigs_lt : ∀ d ∈ digs, d < 58 := fun d hd =>
    Nat.digits_lt_base (by norm_num) (List.mem_reverse.mp hd)
  -- every character of the body decodes
  have hsome : ∀ c ∈ b58Body payload, (b58Digit c).isSome := by
    intro c hc
    rw [hbody, List.mem_append] at hc
    rcases hc with hc | hc
    · rw [List.eq_of_mem_replicate hc]
      decide
    · obtain ⟨d, hd, rfl⟩ := List.mem_map.mp hc
      rw [b58Digit_b58Char d (hdigs_lt d hd)]
      rfl
  refine ⟨mapM_b58Digit_of_isSome _ hsome, ?_⟩
  -- the decoded digit list is the zero run followed by the digits
  have hmap : ((b58Body payload).map fun c => (b58Digit c).getD 0) =
      List.replicate z 0 ++ digs := by
    rw [hbody, List.map_append, List.map_replicate, List.map_map]
    have h1 : (b58Digit '1').getD 0 = 0 := by decide
    have h2 : List.map ((fun c => (b58Digit c).getD 0) ∘ b58Char) digs =
        List.map id digs :=
      List.map_congr_left fun d hd => by
        simp [Function.comp, b58Digit_b58Char d (hdigs_lt d hd)]
    rw [h1, h2, List.map_id]
  -- the zero-character run of the body has the length of the payload's zero run
  have htake : ((b58Body payload).takeWhile (fun c => c == '1')).length = z := by
    rw [hbody, takeWhile_replicate_append _ '1' (by decide), takeWhile_one_digits]
    simp
  -- the reassembled number is the payload's big-endian value
  have hofd : Nat.ofDigits 58 ((List.replicate z 0 ++ digs).reverse) = n := by
    rw [List.reverse_append, List.reverse_replicate, hdigs, List.reverse_reverse,
      Nat.ofDigits_append, Nat.ofDigits_digits, ofDigits_replicate_zero]
    ring
  rw [hmap, htake, hofd]
  -- split the payload into its leading zero bytes and the remainder
  have hsplit : payload.takeWhile (fun b => b == 0) ++
      payload.dropWhile (fun b => b == 0) = payload :=
    List.takeWhile_append_dropWhile (fun b => b == 0) payload
  have hzeros : payload.takeWhile (fun b => b == 0) = List.replicate z 0 := by
    rw [hz]
    exact List.eq_replicate_length.mpr fun b hb => by
      have := List.mem_takeWhile_imp hb
      simpa using this
  set rest := payload.dropWhile (fun b => b == 0) with hrest
  have hnrest : n = Nat.ofDigits 256 rest.reverse := by
    rw [hn, ← hsplit, hzeros, List.reverse_append, List.reverse_replicate,
      Nat.ofDigits_append, ofDigits_replicate_zero]
    ring
  cases hr : rest with
  | nil =>
    have hn0 : n = 0 := by rw [hnrest, hr]; rfl
    have : payload = List.replicate z 0 := by
      rw [← hsplit, hzeros, hr]
      simp
    rw [hn0, this]
    simp
  | cons r rs =>
    have hrlt : ∀ x ∈ rest.reverse, x < 256 := by
      intro x hx
      exact hbytes x ((List.dropWhile_sublist _).mem (List.mem_reverse.mp hx))
    have hrne : rest.reverse ≠ [] := by simp [hr]
    have hhead : (r == 0) = false := dropWhile_head_not _ payload r rs hr
    have hlast : rest.reverse.getLast hrne ≠ 0 := by
      have : rest.reverse = rs.reverse ++ [r] := by rw [hr, List.reverse_cons]
      rw [List.getLast_congr _ _ this, List.getLast_append_singleton]
      simpa using hhead
    have hdig : Nat.digits 256 n = rest.reverse := by
      rw [hnrest]
      exact Nat.digits_ofDigits 256 (by norm_num) rest.reverse hrlt fun _ => hlast
    rw [hdig, List.reverse_reverse, ← hzeros, hsplit]

/-- Every character of the base58 body lies in the alphabet. -/
theorem b58Body_mem_alphabet (payload : List Nat) :
    ∀ c ∈ b58Body payload, c ∈ base58Alphabet := by
  intro c hc
  rw [b58Body, List.mem_append] at hc
  rcases hc with hc | hc
  · rw [List.eq_of_mem_replicate hc]
    decide
  · obtain ⟨d, _, rfl⟩ := List.mem_map.mp hc
    exact b58Char_mem d

/-- Every character of the chunked body is an alphabet character or the dash. -/
theorem mem_chunked (payload : List Nat) (c : Char)
    (hc : c ∈ joinDashed (chunkify chunkSizes (b58Body payload))) :
    c ∈ base58Alphabet ∨ c = '-' := by
  rcases mem_joinDashed _ _ hc with h | h
  · rw [chunkify_flatten] at h
    exact Or.inl (b58Body_mem_alphabet payload c h)
  · exact Or.inr h

/-- The chunked body contains no colon. -/
theorem chunked_no_colon (payload : List Nat) :
    ':' ∉ joinDashed (chunkify chunkSizes (b58Body payload)) := by
  intro h
  rcases mem_chunked payload ':' h with h₂ | h₂
  · exact (alphabet_chars ':' h₂).2.1 rfl
  · exact absurd h₂ (by decide)

/-- The chunked body contains no hash. -/
theorem chunked_no_hash (payload : List Nat) :
    '#' ∉ joinDashed (chunkify chunkSizes (b58Body payload)) := by
  intro h
  rcases mem_chunked payload '#' h with h₂ | h₂
  · exact (alphabet_chars '#' h₂).2.2 rfl
  · exact absurd h₂ (by decide)

/-- No word of the mnemonic word list contains a colon. -/
theorem mnemonicWords_no_colon :
    ∀ w ∈ mnemonicWords, ∀ c ∈ w, ¬c = ':' := by decide

/-- No selected mnemonic word contains a colon. -/
theorem mnemonicWords_getD_no_colon (i : Nat) :
    ∀ c ∈ mnemonicWords.getD i [], ¬c = ':' := by
  intro c hc
  rcases Nat.lt_or_ge i mnemonicWords.length with h | h
  · rw [List.getD_eq_getElem _ _ h] at hc
    exact mnemonicWords_no_colon _ (List.getElem_mem h) c hc
  · rw [List.getD_eq_default _ _ h] at hc
    exact absurd hc (List.not_mem_nil c)

/-- The mnemonic suffix contains no colon. -/
theorem mnemonic_no_colon (payload : List Nat) : ':' ∉ mnemonic payload := by
  intro h
  simp only [mnemonic] at h
  rcases mem_joinDashed _ _ h with h₂ | h₂
  · simp only [List.flatten_cons, List.flatten_nil, List.append_nil,
      List.mem_append] at h₂
    rcases h₂ with h₃ | h₃ | h₃ <;> exact mnemonicWords_getD_no_colon _ ':' h₃ rfl
  · exact absurd h₂ (by decide)

/-- Decoding the chunked body, with or without a mnemonic suffix, recovers the 32-byte
payload. -/
theorem decodeBody_roundtrip (id : SchemaId) (tl : List Char) (hlen : id.length = 32)
    (hbytes : ∀ b ∈ id, b < 256)
    (htl : tl = [] ∨ ∃ mn : List Char, tl = '#' :: mn) :
    baid58DecodeBody (joinDashed (chunkify chunkSizes (b58Body id)) ++ tl) =
      Except.ok id := by
  have hhash : '#' ∉ joinDashed (chunkify chunkSizes (b58Body id)) := chunked_no_hash id
  have hbody : (joinDashed (chunkify chunkSizes (b58Body id)) ++ tl).takeWhile
      (fun c => c != '#') = joinDashed (chunkify chunkSizes (b58Body id)) := by
    rcases htl with rfl | ⟨mn, rfl⟩
    · rw [List.append_nil]
      exact takeWhile_ne_self '#' _ hhash
    · exact takeWhile_ne_append '#' _ mn hhash
  have hdash : ∀ c ∈ b58Body id, (c != '-') = true := fun c hc =>
    bne_iff_ne.mpr (alphabet_chars c (b58Body_mem_alphabet id c hc)).1
  have hfilter : (joinDashed (chunkify chunkSizes (b58Body id))).filter
      (fun c => c != '-') = b58Body id := by
    rw [filter_joinDashed, chunkify_flatten]
    exact List.filter_eq_self.mpr hdash
  obtain ⟨hm, heq⟩ := b58Body_decodes id hbytes
  have hne : ¬(joinDashed (chunkify chunkSizes (b58Body id)) ≠ b58Body id ∧
      joinDashed (chunkify chunkSizes (b58Body id)) ≠
        joinDashed (chunkify chunkSizes (b58Body id))) :=
    fun h => h.2 rfl
  simp only [baid58DecodeBody]
  rw [hbody, hfilter, if_neg hne, hm]
  simp only [heq, hlen, if_true]

/-- The maybe-chunked parser accepts the body both bare and behind the "sc" HRI. -/
theorem fromBaid58_forms (id : SchemaId) (tl : List Char) (hlen : id.length = 32)
    (hbytes : ∀ b ∈ id, b < 256)
    (htl : tl = [] ∨ ∃ mn : List Char, tl = '#' :: mn) (hcolon_tl : ':' ∉ tl) :
    fromBaid58MaybeChunkedStr
        (joinDashed (chunkify chunkSizes (b58Body id)) ++ tl) = Except.ok id ∧
      fromBaid58MaybeChunkedStr ("sc:".toList ++
        (joinDashed (chunkify chunkSizes (b58Body id)) ++ tl)) = Except.ok id := by
  have hcolon_bp : ':' ∉ joinDashed (chunkify chunkSizes (b58Body id)) ++ tl := by
    intro h
    rcases List.mem_append.mp h with h | h
    · exact chunked_no_colon id h
    · exact hcolon_tl h
  constructor
  · have hnone : dropLeading "sc:".toList
        (joinDashed (chunkify chunkSizes (b58Body id)) ++ tl) = none :=
      dropLeading_none_of_not_mem (by decide) hcolon_bp
    rw [fromBaid58MaybeChunkedStr, hnone]
    rw [if_neg hcolon_bp]
    exact decodeBody_roundtrip id tl hlen hbytes htl
  · rw [fromBaid58MaybeChunkedStr, dropLeading_append]
    exact decodeBody_roundtrip id tl hlen hbytes htl

/-- Claim C6: parsing the displayed textual form of a 32-byte schema id yields the
original id, for the full URN form and for the bare chunked base58 string, each with or
without the mnemonic suffix, the parser trimming the known "urn:lnp-bp:" namespace
before decoding. -/
theorem schema_id_display_from_str_roundtrip (id : SchemaId)
    (alternate signMinus : Bool) (hlen : id.length = 32)
    (hbytes : ∀ b ∈ id, b < 256) :
    SchemaId.from_str (SchemaId.display alternate signMinus id) = Except.ok id := by
  have htl : (if signMinus then ([] : List Char) else '#' :: mnemonic id) = [] ∨
      ∃ mn : List Char,
        (if signMinus then ([] : List Char) else '#' :: mnemonic id) = '#' :: mn := by
    cases signMinus
    · exact Or.inr ⟨mnemonic id, rfl⟩
    · exact Or.inl rfl
  have hcolon_tl : ':' ∉ (if signMinus then ([] : List Char) else '#' :: mnemonic id) := by
    cases signMinus
    · show ':' ∉ '#' :: mnemonic id
      intro h
      rcases List.mem_cons.mp h with h | h
      · exact absurd h (by decide)
      · exact mnemonic_no_colon id h
    · show ':' ∉ ([] : List Char)
      exact List.not_mem_nil ':'
  have hforms := fromBaid58_forms id _ hlen hbytes htl hcolon_tl
  have hcolon_bp : ':' ∉ joinDashed (chunkify chunkSizes (b58Body id)) ++
      (if signMinus then ([] : List Char) else '#' :: mnemonic id) := by
    intro h
    rcases List.mem_append.mp h with h | h
    · exact chunked_no_colon id h
    · exact hcolon_tl h
  cases alternate
  · have hdisp : SchemaId.display false signMinus id =
        "urn:lnp-bp:".toList ++ ("sc:".toList ++
          (joinDashed (chunkify chunkSizes (b58Body id)) ++
            (if signMinus then ([] : List Char) else '#' :: mnemonic id))) := by
      show "urn:lnp-bp:sc:".toList ++ _ ++ _ = _
      rw [show "urn:lnp-bp:sc:".toList = "urn:lnp-bp:".toList ++ "sc:".toList from rfl]
      simp [List.append_assoc]
    have hnone : dropLeading "urn:lnp-bp:".toList ("sc:".toList ++
        (joinDashed (chunkify chunkSizes (b58Body id)) ++
          (if signMinus then ([] : List Char) else '#' :: mnemonic id))) = none := by
      rw [show "sc:".toList = 's' :: 'c' :: ':' :: [] from rfl,
        show "urn:lnp-bp:".toList = 'u' :: "rn:lnp-bp:".toList from rfl]
      simp only [List.cons_append, dropLeading]
      rw [if_neg (by decide)]
    rw [SchemaId.from_str, hdisp,
      trimStartMatches_strip_once _ _ (by decide) hnone]
    exact hforms.2
  · have hdisp : SchemaId.display true signMinus id =
        joinDashed (chunkify chunkSizes (b58Body id)) ++
          (if signMinus then ([] : List Char) else '#' :: mnemonic id) := by
      show [] ++ _ ++ _ = _
      simp
    have hnone : dropLeading "urn:lnp-bp:".toList
        (joinDashed (chunkify chunkSizes (b58Body id)) ++
          (if signMinus then ([] : List Char) else '#' :: mnemonic id)) = none :=
      dropLeading_none_of_not_mem (by decide) hcolon_bp
    rw [SchemaId.from_str, hdisp, trimStartMatches_of_none hnone]
    exact hforms.1

/-- Witness for C6: the all-zero 32-byte id survives the full-URN display/parse round
trip. -/
theorem schema_id_roundtrip_example :
    SchemaId.from_str (SchemaId.display false false (List.replicate 32 0)) =
      Except.ok (List.replicate 32 0) :=
  schema_id_display_from_str_roundtrip (List.replicate 32 0) false false (by decide)
    (by decide)

/-- Claim C7: parsing any input string yields either a decoded id or a structured parse
error value — the parser is a total function and cannot panic. -/
theorem from_str_total_and_structured (s : List Char) :
    (∃ id : SchemaId, SchemaId.from_str s = Except.ok id) ∨
      ∃ e : Baid58ParseError, SchemaId.from_str s = Except.error e := by
  cases h : SchemaId.from_str s with
  | ok v => exact Or.inl ⟨v, rfl⟩
  | error e => exact Or.inr ⟨e, rfl⟩

end RgbCore
